import Mathlib

/-!
# Shallow embedding of `QuMultiReader` (cumbia-multiread-plugin)

This file models `src/qumultireader.cpp`.  The private state
(`QuMultiReaderPrivate`) holds

* `readersMap  : QMap<QString, CuControlsReaderA*>` — modelled as an
  association list `List (String × Bool)`; the Boolean records whether the
  stored pointer is non-null (`QMap::operator[]` inserts a *null* pointer on a
  missing key).  Its iteration order is never observed by the code, so a plain
  association list suffices.
* `databuf     : QMap<int, CuData>` and `idx_src_map : QMap<int, QString>` —
  modelled as association lists sorted strictly by key (`QMap` iterates,
  lists `keys()`/`values()`, and returns `first()` in ascending key order).
* `sequential : bool`, `period : int`, and the lazily created `QTimer`
  (modelled as the Boolean `timer`: does the timer object exist?).

Calls into collaborators (readers, the `CuContext`, signal emission) are
recorded as a list of events `Ev`.  `CuControlsReaderA::sendData` on a reader
becomes `Ev.cmd key …`; the signals `onNewData` / `onSeqReadComplete` become
`Ev.newData` / `Ev.seqComplete`; `QTimer::start` becomes `Ev.timerStart`;
`CuContext::disposeReader` becomes `Ev.dispose`.

`CuContext::add_reader` together with `r->source()` (the engine may
canonicalize the source string) is modelled by a parameter
`canon : String → Option String`: `none` models `add_reader` returning null,
`some s` models a reader whose `source()` is `s`.

A C++ null-pointer dereference (e.g. `d->readersMap[s]->sendData(...)` when
the key is absent or holds a null pointer, or `d->timer->start(...)` when the
timer was never created) aborts the handler; partial operations therefore
return `Option`, `none` standing for that undefined behaviour.
-/

/-- Model of `CuData` as far as this code observes it: the `"src"` entry and
an opaque payload tag distinguishing different data objects. -/
structure CuData where
  src : String
  val : Nat
deriving DecidableEq

/-- Commands sent to a reader via `CuControlsReaderA::sendData`. -/
inductive Cmd where
  | read                -- `CuData("read", "")`, possibly with "src" set
  | period (ms : Int)   -- `CuData("period", ms)`
  | user (d : CuData)   -- arbitrary data forwarded by `QuMultiReader::sendData`
deriving DecidableEq

/-- Observable events: signal emissions and calls into collaborators. -/
inductive Ev where
  | newData (d : CuData)              -- `emit onNewData(data)`
  | seqComplete (ds : List CuData)    -- `emit onSeqReadComplete(...)`
  | cmd (target : String) (c : Cmd)   -- `reader->sendData(...)` on reader `target`
  | timerStart (ms : Int)             -- `d->timer->start(ms)`
  | dispose (src : Option String)     -- `d->context->disposeReader(...)`; `none` = all
deriving DecidableEq

/-- `true` exactly on `Ev.seqComplete` events. -/
def Ev.isComplete : Ev → Bool
  | .seqComplete _ => true
  | _ => false

/-- `true` exactly on `Ev.cmd` events. -/
def Ev.isCmd : Ev → Bool
  | .cmd _ _ => true
  | _ => false

/-! ## A model of `QMap<int, α>` as a key-sorted association list -/

/-- Keys of the map, in ascending order (`QMap::keys`). -/
def qkeys {α : Type} (m : List (Int × α)) : List Int :=
  m.map Prod.fst

/-- Values of the map, in ascending order of their keys (`QMap::values`). -/
def qvalues {α : Type} (m : List (Int × α)) : List α :=
  m.map Prod.snd

/-- `QMap::insert` / `operator[]` assignment: insert at the sorted position,
replacing an existing entry with the same key. -/
def qinsert {α : Type} : List (Int × α) → Int → α → List (Int × α)
  | [], k, v => [(k, v)]
  | (k', v') :: t, k, v =>
    if k < k' then (k, v) :: (k', v') :: t
    else if k = k' then (k, v) :: t
    else (k', v') :: qinsert t k v

/-- `QMap::remove`. -/
def qremove {α : Type} (m : List (Int × α)) (k : Int) : List (Int × α) :=
  m.filter (fun p => decide (p.1 ≠ k))

/-- Lookup returning `none` on a missing key. -/
def qgets {α : Type} (m : List (Int × α)) (k : Int) : Option α :=
  (m.find? (fun p => decide (p.1 = k))).map Prod.snd

/-- `QMap::value` / read through `operator[]` of a present key: the stored
value, or `dflt` (the default-constructed value) when absent. -/
def qgetD {α : Type} (m : List (Int × α)) (k : Int) (dflt : α) : α :=
  (qgets m k).getD dflt

/-- `QMap<int,QString>::key(value)`: the *first* (smallest) key mapped to
`v`, or the default-constructed key `0` when no entry has value `v`. -/
def qkeyOf (m : List (Int × String)) (v : String) : Int :=
  match m.find? (fun p => p.2 == v) with
  | some p => p.1
  | none => 0

/-- The well-formedness invariant of the `QMap` model: keys strictly
ascending. -/
def SortedK {α : Type} (m : List (Int × α)) : Prop :=
  m.Pairwise (fun a b => a.1 < b.1)

/-- `QSet` equality of two key lists (`res_idx != idxs` compares as sets). -/
def sameElems (a b : List Int) : Bool :=
  decide ((∀ x ∈ a, x ∈ b) ∧ (∀ x ∈ b, x ∈ a))

/-! ## A model of `QMap<QString, CuControlsReaderA*>` -/

/-- Lookup in the readers map: `none` if the key is absent, `some b` if
present, `b` recording that the stored pointer is non-null. -/
def lookupR (m : List (String × Bool)) (s : String) : Option Bool :=
  (m.find? (fun p => p.1 == s)).map Prod.snd

/-- `QMap::insert` on the readers map (replace or add; iteration order of
this map is never observed, so position is irrelevant). -/
def rinsert (m : List (String × Bool)) (s : String) (b : Bool) : List (String × Bool) :=
  (m.filter (fun p => p.1 != s)) ++ [(s, b)]

/-! ## The state of `QuMultiReader` -/

/-- `QuMultiReaderPrivate`. -/
structure MState where
  readersMap : List (String × Bool)
  sequential : Bool
  period : Int
  databuf : List (Int × CuData)
  idx_src_map : List (Int × String)
  timer : Bool
deriving DecidableEq

/-- The state after the constructor `QuMultiReader::QuMultiReader`. -/
def initState : MState :=
  { readersMap := [], sequential := false, period := 1000,
    databuf := [], idx_src_map := [], timer := false }

namespace QuMultiReader

/-- `QString::section('(', 0, 0)`: everything before the first `'('`
(the whole string when it has no parenthesis). -/
def noArgs (s : String) : String :=
  ⟨s.data.takeWhile (fun c => c != '(')⟩

/-- `QuMultiReader::m_matchNoArgs`: scan the registry in ascending key order
and return the first key whose id matches `src` once trailing call-arguments
are stripped from both; `-1` when none matches. -/
def m_matchNoArgs (m : List (Int × String)) (src : String) : Int :=
  match m.find? (fun p => noArgs p.2 == noArgs src) with
  | some p => p.1
  | none => -1

/-- Label resolution in `QuMultiReader::onUpdate` (lines 194–197): exact
match via `QMap::key` when the raw label is among the registered values,
otherwise the no-args fallback. -/
def resolve (m : List (Int × String)) (fr : String) : Int :=
  if fr ∈ m.map Prod.snd then qkeyOf m fr else m_matchNoArgs m fr

/-- The sequential branch of `onUpdate` (`d->sequential && pos >= 0`),
after `emit onNewData`: store the payload, and when the index is new either
request the minimum missing index or emit the completed cycle. -/
def seqHandle (st : MState) (pos : Int) (data : CuData) : Option (MState × List Ev) :=
  if pos ∈ qkeys st.databuf then
    -- `update == true`: `databuf[pos] = data` overwrites, nothing else happens
    some ({st with databuf := qinsert st.databuf pos data}, [])
  else
    let buf := qinsert st.databuf pos data
    if sameElems (qkeys buf) (qkeys st.idx_src_map) then
      -- databuf complete: emit in ascending key order, clear, maybe re-arm
      if 0 < st.period then
        if st.timer then
          some ({st with databuf := []}, [Ev.seqComplete (qvalues buf), Ev.timerStart st.period])
        else none -- `d->timer->start` on a never-created timer
      else
        some ({st with databuf := []}, [Ev.seqComplete (qvalues buf)])
    else
      -- `diff = idxs - res_idx`; `std::min_element` = head of the ascending list
      match ((qkeys st.idx_src_map).filter (fun k => decide (k ∉ qkeys buf))).head? with
      | none => some ({st with databuf := buf}, [])
      | some i =>
        match lookupR st.readersMap (qgetD st.idx_src_map i "") with
        | some true =>
          some ({st with databuf := buf}, [Ev.cmd (qgetD st.idx_src_map i "") Cmd.read])
        | _ => none -- null reader dereference

/-- `QuMultiReader::onUpdate`. -/
def onUpdate (st : MState) (data : CuData) : Option (MState × List Ev) :=
  let pos := resolve st.idx_src_map data.src
  if st.sequential = true ∧ 0 ≤ pos then
    match seqHandle st pos data with
    | none => none
    | some (st', evs) => some (st', Ev.newData data :: evs)
  else
    some (st, [Ev.newData data])

/-- `QuMultiReader::sendData(const QString&, const CuData&)`:
`d->readersMap[s]` inserts a null pointer when `s` is absent; the command is
forwarded only when the stored pointer is non-null. -/
def sendDataS (st : MState) (s : String) (da : CuData) : MState × List Ev :=
  match lookupR st.readersMap s with
  | some b => if b then (st, [Ev.cmd s (Cmd.user da)]) else (st, [])
  | none => ({st with readersMap := rinsert st.readersMap s false}, [])

/-- `QuMultiReader::sendData(int, const CuData&)`: `d->idx_src_map[index]`
inserts an empty string when `index` is absent; forwarding happens only for a
non-empty source. -/
def sendDataI (st : MState) (i : Int) (da : CuData) : MState × List Ev :=
  match qgets st.idx_src_map i with
  | some src => if src ≠ "" then sendDataS st src da else (st, [])
  | none => ({st with idx_src_map := qinsert st.idx_src_map i ""}, [])

/-- `QuMultiReader::insertSource` (with `canon` standing for
`add_reader` + `r->source()`): rejects a negative index, registers the
canonical id in both maps, and creates the timer when this is the first
source in sequential mode. -/
def insertSource (canon : String → Option String) (st : MState) (src : String) (i : Int) :
    MState :=
  if i < 0 then st
  else
    let st1 :=
      match canon src with
      | none => st
      | some cs =>
        { st with readersMap := rinsert st.readersMap cs true,
                  idx_src_map := qinsert st.idx_src_map i cs }
    if st1.idx_src_map.length = 1 ∧ st1.sequential = true then
      { st1 with timer := true }
    else st1

/-- `QuMultiReader::unsetSources`: dispose all readers, clear the registry
and the readers map.  The cycle buffer `databuf` is left untouched. -/
def unsetSources (st : MState) : MState × List Ev :=
  ({st with idx_src_map := [], readersMap := []}, [Ev.dispose none])

/-- The loop `for(int i = 0; i < srcs.size(); i++) insertSource(srcs[i], i)`
in `QuMultiReader::setSources`. -/
def setSourcesLoop (canon : String → Option String) (st : MState) :
    List String → Int → MState
  | [], _ => st
  | s :: rest, i => setSourcesLoop canon (insertSource canon st s i) rest (i + 1)

/-- `QuMultiReader::setSources`: `unsetSources` then `insertSource srcs[i] i`
for `i = 0, …`. -/
def setSources (canon : String → Option String) (st : MState) (srcs : List String) :
    MState × List Ev :=
  let p := unsetSources st
  (setSourcesLoop canon p.1 srcs 0, p.2)

/-- `QuMultiReader::removeSource`: dispose the reader, then remove
`idx_src_map.key(src)` — which is the default key `0` when `src` is not a
registered value — from the registry, and `src` from the readers map. -/
def removeSource (st : MState) (src : String) : MState × List Ev :=
  ({st with idx_src_map := qremove st.idx_src_map (qkeyOf st.idx_src_map src),
            readersMap := st.readersMap.filter (fun p => p.1 != src)},
   [Ev.dispose (some src)])

/-- `QuMultiReader::setPeriod`: store the period; when not sequential and the
period is positive, broadcast a `"period"` command to every live reader. -/
def setPeriod (st : MState) (ms : Int) : MState × List Ev :=
  ({st with period := ms},
   if st.sequential = false ∧ 0 < ms then
     (st.readersMap.filter Prod.snd).map (fun p => Ev.cmd p.1 (Cmd.period ms))
   else [])

/-- `QuMultiReader::setSequential`. -/
def setSequential (st : MState) (b : Bool) : MState :=
  {st with sequential := b}

/-- `QuMultiReader::startRead`: when the registry is non-empty, send a
`"read"` command to the reader of `idx_src_map.first()` (the value at the
smallest key); `d->readersMap[src0]->sendData` dereferences a null pointer
when that reader is absent or null. -/
def startRead (st : MState) : Option (MState × List Ev) :=
  match st.idx_src_map.head? with
  | none => some (st, [])
  | some p =>
    match lookupR st.readersMap p.2 with
    | some true => some (st, [Ev.cmd p.2 Cmd.read])
    | _ => none

/-- Folding `onUpdate` over a list of incoming results, accumulating
events. -/
def runUpdates (st : MState) : List CuData → Option (MState × List Ev)
  | [] => some (st, [])
  | d :: ds =>
    match onUpdate st d with
    | none => none
    | some (st1, evs) =>
      match runUpdates st1 ds with
      | none => none
      | some (st2, evs2) => some (st2, evs ++ evs2)

end QuMultiReader

/-! ## Helper lemmas about the `QMap` model -/

instance sortedKDec {α : Type} (m : List (Int × α)) : Decidable (SortedK m) :=
  inferInstanceAs (Decidable (m.Pairwise _))

theorem mem_qkeys_qinsert {α : Type} (m : List (Int × α)) (k : Int) (v : α) (k' : Int) :
    k' ∈ qkeys (qinsert m k v) ↔ k' = k ∨ k' ∈ qkeys m := by
  induction m with
  | nil => simp [qinsert, qkeys]
  | cons a t ih =>
    obtain ⟨ka, va⟩ := a
    simp only [qkeys, List.map_cons, List.mem_cons] at ih ⊢
    simp only [qinsert]
    by_cases h1 : k < ka
    · simp only [if_pos h1, List.map_cons, List.mem_cons]
    · by_cases h2 : k = ka
      · simp only [if_neg h1, if_pos h2, List.map_cons, List.mem_cons]
        subst h2
        tauto
      · simp only [if_neg h1, if_neg h2, List.map_cons, List.mem_cons]
        rw [ih]
        tauto

theorem sortedK_qinsert {α : Type} {m : List (Int × α)} (hs : SortedK m) (k : Int) (v : α) :
    SortedK (qinsert m k v) := by
  induction m with
  | nil => simp [qinsert, SortedK]
  | cons a t ih =>
    obtain ⟨ka, va⟩ := a
    rw [SortedK, List.pairwise_cons] at hs
    simp only [qinsert]
    by_cases h1 : k < ka
    · simp only [if_pos h1]
      rw [SortedK, List.pairwise_cons]
      refine ⟨?_, List.pairwise_cons.mpr ⟨hs.1, hs.2⟩⟩
      intro b hb
      rcases List.mem_cons.mp hb with h | h
      · exact h ▸ h1
      · exact h1.trans (hs.1 b h)
    · by_cases h2 : k = ka
      · simp only [if_neg h1, if_pos h2]
        rw [SortedK, List.pairwise_cons]
        exact ⟨fun b hb => h2 ▸ hs.1 b hb, hs.2⟩
      · simp only [if_neg h1, if_neg h2]
        rw [SortedK, List.pairwise_cons]
        refine ⟨?_, ih hs.2⟩
        intro b hb
        have hb' : b.1 ∈ qkeys (qinsert t k v) := List.mem_map_of_mem Prod.fst hb
        rcases (mem_qkeys_qinsert t k v b.1).mp hb' with h | h
        · have hlt : ka < k := lt_of_le_of_ne (not_lt.mp h1) (Ne.symm h2)
          exact h ▸ hlt
        · rcases List.mem_map.mp h with ⟨q, hq, hq1⟩
          exact hq1 ▸ hs.1 q hq

theorem sortedK_keys {α : Type} {m : List (Int × α)} (hs : SortedK m) :
    (qkeys m).Pairwise (· < ·) := by
  rw [qkeys, List.pairwise_map]
  exact hs

theorem sortedK_keys_nodup {α : Type} {m : List (Int × α)} (hs : SortedK m) :
    (qkeys m).Nodup :=
  (sortedK_keys hs).imp ne_of_lt

/-- Two strictly ascending integer lists with the same members are equal. -/
theorem sorted_eq_of_sameElems {a b : List Int}
    (ha : a.Pairwise (· < ·)) (hb : b.Pairwise (· < ·))
    (h : ∀ x, x ∈ a ↔ x ∈ b) : a = b := by
  have hperm : a.Perm b :=
    (List.perm_ext_iff_of_nodup (ha.imp ne_of_lt) (hb.imp ne_of_lt)).mpr h
  exact List.eq_of_perm_of_sorted hperm ha hb

theorem sameElems_iff (a b : List Int) :
    sameElems a b = true ↔ ((∀ x ∈ a, x ∈ b) ∧ (∀ x ∈ b, x ∈ a)) := by
  rw [sameElems, decide_eq_true_iff]

/-- On a key-sorted map, `find?` returns the matching entry of minimum key. -/
theorem sorted_find?_eq {α : Type} {m : List (Int × α)} (p : Int × α → Bool)
    (hs : SortedK m) {k₀ : Int} {v₀ : α} (hmem : (k₀, v₀) ∈ m) (hp : p (k₀, v₀) = true)
    (hmin : ∀ q ∈ m, p q = true → k₀ ≤ q.1) :
    m.find? p = some (k₀, v₀) := by
  induction m with
  | nil => cases hmem
  | cons a t ih =>
    rw [SortedK, List.pairwise_cons] at hs
    by_cases hpa : p a = true
    · rw [List.find?_cons_of_pos t hpa]
      rcases List.mem_cons.mp hmem with h | h
      · rw [h]
      · exact absurd (hmin a (List.mem_cons_self a t) hpa) (not_le.mpr (hs.1 _ h))
    · rw [List.find?_cons_of_neg t hpa]
      have hmem' : (k₀, v₀) ∈ t := by
        rcases List.mem_cons.mp hmem with h | h
        · exact absurd (h ▸ hp) hpa
        · exact h
      exact ih hs.2 hmem' (fun q hq hpq => hmin q (List.mem_cons_of_mem a hq) hpq)

/-- A result index accepted by the scheduler (`pos >= 0`) is a registered
index. -/
theorem resolve_mem {m : List (Int × String)} {fr : String} {k : Int}
    (h : QuMultiReader.resolve m fr = k) (hk : 0 ≤ k) : k ∈ qkeys m := by
  rw [QuMultiReader.resolve] at h
  by_cases hin : fr ∈ m.map Prod.snd
  · rw [if_pos hin] at h
    rw [qkeyOf] at h
    split at h
    case _ p heq =>
      exact h ▸ List.mem_map_of_mem Prod.fst (List.mem_of_find?_eq_some heq)
    case _ heq =>
      exfalso
      rcases List.mem_map.mp hin with ⟨q, hq, hq2⟩
      have hnone := List.find?_eq_none.mp heq q hq
      simp [hq2] at hnone
  · rw [if_neg hin] at h
    rw [QuMultiReader.m_matchNoArgs] at h
    split at h
    case _ p heq =>
      exact h ▸ List.mem_map_of_mem Prod.fst (List.mem_of_find?_eq_some heq)
    case _ heq => omega

/-! ## Concrete states used by witnesses and counterexamples -/

open QuMultiReader

/-- Two registered sources `"a" ↦ 0`, `"b" ↦ 1`, sequential manual mode,
with the result for index 0 already buffered (mid-cycle). -/
def exTwo : MState :=
  { readersMap := [("a", true), ("b", true)], sequential := true, period := -1,
    databuf := [(0, ⟨"a", 7⟩)], idx_src_map := [(0, "a"), (1, "b")], timer := false }

/-- Three registered sources in sequential manual mode, empty cycle buffer. -/
def exThree : MState :=
  { readersMap := [("a", true), ("b", true), ("c", true)], sequential := true, period := -1,
    databuf := [], idx_src_map := [(0, "a"), (1, "b"), (2, "c")], timer := false }

/-- The mid-cycle state produced from the freshly constructed object by
`setSequential(true)`, `insertSource("a",0)`, `insertSource("b",1)` and a
first incoming result for `"a"`. -/
def midCycle : MState :=
  { readersMap := [("a", true), ("b", true)], sequential := true, period := 1000,
    databuf := [(0, ⟨"a", 1⟩)], idx_src_map := [(0, "a"), (1, "b")], timer := true }

/-- A single source `"a"` registered at index 0. -/
def exIdx0 : MState :=
  { readersMap := [("a", true)], sequential := false, period := 1000,
    databuf := [], idx_src_map := [(0, "a")], timer := false }

/-! ## Claim theorems -/

/-- C10: in sequential mode, a resolved result for an index already present
in the cycle buffer overwrites the stored payload and does nothing else: no
retry read, no completeness check, no cycle-complete emission — only the
unconditional `onNewData`. -/
theorem onUpdate_duplicate_overwrites (st : MState) (d : CuData)
    (hseq : st.sequential = true)
    (hpos : 0 ≤ resolve st.idx_src_map d.src)
    (hmem : resolve st.idx_src_map d.src ∈ qkeys st.databuf) :
    onUpdate st d =
      some ({st with databuf := qinsert st.databuf (resolve st.idx_src_map d.src) d},
            [Ev.newData d]) := by
  simp [onUpdate, seqHandle, hseq, hpos, hmem]

/-- Witness for C10: a duplicate result for index 0 of `exTwo` overwrites the
buffered payload and emits only `onNewData`. -/
theorem onUpdate_duplicate_overwrites_witness :
    onUpdate exTwo ⟨"a", 9⟩ =
      some ({exTwo with databuf := [(0, ⟨"a", 9⟩)]}, [Ev.newData ⟨"a", 9⟩]) :=
  (onUpdate_duplicate_overwrites exTwo ⟨"a", 9⟩ (by decide) (by decide)
    (by decide)).trans (by decide)

/-- C7: in concurrent (non-sequential) mode, any sequence of incoming results
leaves the whole state unchanged (in particular the cycle buffer is never
written) and emits only per-update `onNewData` events — never
`onSeqReadComplete`. -/
theorem concurrent_no_cycle_events (st : MState) (ds : List CuData)
    (h : st.sequential = false) :
    runUpdates st ds = some (st, ds.map Ev.newData) ∧
    (ds.map Ev.newData).filter Ev.isComplete = [] := by
  have hone : ∀ d : CuData, onUpdate st d = some (st, [Ev.newData d]) := by
    intro d
    rw [onUpdate, if_neg]
    intro hc
    rw [h] at hc
    exact Bool.false_ne_true hc.1
  constructor
  · induction ds with
    | nil => rfl
    | cons d ds ih =>
      simp [runUpdates, hone d, ih]
  · induction ds with
    | nil => rfl
    | cons d ds ih =>
      simp only [List.map_cons, List.filter_cons, Ev.isComplete]
      exact ih

/-- Witness for C7: feeding two results to a freshly constructed (hence
concurrent-mode) reader emits only the two `onNewData` events. -/
theorem concurrent_no_cycle_events_witness :
    runUpdates initState [⟨"a", 1⟩, ⟨"b", 2⟩] =
      some (initState, [Ev.newData ⟨"a", 1⟩, Ev.newData ⟨"b", 2⟩]) :=
  (concurrent_no_cycle_events initState [⟨"a", 1⟩, ⟨"b", 2⟩] (by decide)).1.trans
    (by decide)

/-- C5: `startRead` on an empty registry is a no-op (no command, no state
change, no error); on a non-empty registry it sends exactly one `read`
command to the reader of the source registered at the minimum index. -/
theorem startRead_spec (st : MState) :
    (st.idx_src_map = [] → startRead st = some (st, [])) ∧
    (∀ k v, SortedK st.idx_src_map → st.idx_src_map.head? = some (k, v) →
      lookupR st.readersMap v = some true →
      (startRead st = some (st, [Ev.cmd v Cmd.read]) ∧ ∀ p ∈ st.idx_src_map, k ≤ p.1)) := by
  constructor
  · intro h
    rw [startRead, h]
    rfl
  · intro k v hs hh hl
    refine ⟨by rw [startRead, hh]; simp [hl], ?_⟩
    match hm : st.idx_src_map with
    | [] => rw [hm] at hh; cases hh
    | a :: t =>
      rw [hm] at hh hs
      rw [List.head?_cons] at hh
      obtain rfl : a = (k, v) := Option.some.inj hh
      rw [SortedK, List.pairwise_cons] at hs
      intro p hp
      rcases List.mem_cons.mp hp with h | h
      · exact h ▸ le_refl k
      · exact le_of_lt (hs.1 p h)

/-- Witness for C5: on `exThree` one `read` is issued to `"a"` (index 0, the
minimum); on the freshly constructed state the call is a no-op. -/
theorem startRead_spec_witness :
    startRead exThree = some (exThree, [Ev.cmd "a" Cmd.read]) ∧
    startRead initState = some (initState, []) :=
  ⟨((startRead_spec exThree).2 0 "a" (by decide) (by decide) (by decide)).1,
   (startRead_spec initState).1 (by decide)⟩

/-- C4 (amended): `unsetSources` empties the registry and the readers map and
emits no cycle-complete event, but it does *not* clear the cycle buffer:
`d->databuf` is left untouched (`QuMultiReader::unsetSources`, lines 71–76,
clears only `idx_src_map` and `readersMap`). -/
theorem unsetSources_spec (st : MState) :
    (unsetSources st).1.idx_src_map = [] ∧
    (unsetSources st).1.readersMap = [] ∧
    (unsetSources st).1.databuf = st.databuf ∧
    (unsetSources st).2.filter Ev.isComplete = [] := by
  simp [unsetSources, Ev.isComplete]

/-- Counterexample to C4 as stated: from the freshly constructed object, the
operations `setSequential(true)`, `insertSource("a",0)`, `insertSource("b",1)`
followed by one incoming result for `"a"` reach `midCycle`; calling
`unsetSources` there leaves the cycle buffer non-empty (the claim says it is
left empty). -/
theorem unsetSources_leaves_buffer_cex :
    (onUpdate (insertSource some (insertSource some (setSequential initState true) "a" 0)
        "b" 1) ⟨"a", 1⟩).map Prod.fst = some midCycle ∧
    (unsetSources midCycle).1.databuf = [(0, ⟨"a", 1⟩)] ∧
    (unsetSources midCycle).2.filter Ev.isComplete = [] := by
  decide

/-- C8 (code bug): `removeSource` with an id that is *not* registered is not
a no-op: `QMap::key(src)` falls back to the default key `0`, so the entry
registered at index 0 is removed from the registry (the readers map is
unchanged).  Here `"a"` is registered at index 0 and `removeSource("zzz")`
deletes it from `idx_src_map`. -/
theorem removeSource_unknown_bug :
    "zzz" ∉ qvalues exIdx0.idx_src_map ∧
    (removeSource exIdx0 "zzz").1.idx_src_map = [] ∧
    (removeSource exIdx0 "zzz").1.readersMap = [("a", true)] := by
  decide

/-- C9 (amended): `sendData` with an unknown id or unregistered index
forwards no command to any reader and leaves the cycle buffer unchanged, but
it is not state-neutral: `QMap::operator[]` inserts a default entry — a null
reader under the unknown id (string overload), or the empty source string at
the unknown index in the registry (index overload). -/
theorem sendData_unknown_no_command (st : MState) (s : String) (i : Int) (da : CuData) :
    (lookupR st.readersMap s = none →
      sendDataS st s da = ({st with readersMap := rinsert st.readersMap s false}, [])) ∧
    (qgets st.idx_src_map i = none →
      sendDataI st i da = ({st with idx_src_map := qinsert st.idx_src_map i ""}, [])) := by
  constructor
  · intro h
    rw [sendDataS, h]
  · intro h
    rw [sendDataI, h]

/-- Witness for C9 (amended): on the freshly constructed state, both
overloads with unknown targets forward nothing and insert the default
entry. -/
theorem sendData_unknown_no_command_witness :
    sendDataS initState "nope" ⟨"x", 0⟩ =
      ({initState with readersMap := [("nope", false)]}, []) ∧
    sendDataI initState 5 ⟨"x", 0⟩ =
      ({initState with idx_src_map := [(5, "")]}, []) :=
  ⟨((sendData_unknown_no_command initState "nope" 5 ⟨"x", 0⟩).1 (by decide)).trans
      (by decide),
   ((sendData_unknown_no_command initState "nope" 5 ⟨"x", 0⟩).2 (by decide)).trans
      (by decide)⟩

/-- Counterexample to C9 as stated: `sendData(5, …)` on the freshly
constructed object (index 5 unregistered) changes observable state — the
registry acquires the entry `(5, "")`, which from then on shows up in
`sources()`. -/
theorem sendData_unknown_mutates_cex :
    (sendDataI initState 5 ⟨"x", 0⟩).2 = [] ∧
    (sendDataI initState 5 ⟨"x", 0⟩).1 ≠ initState ∧
    (sendDataI initState 5 ⟨"x", 0⟩).1.idx_src_map = [(5, "")] := by
  decide

/-- C6: when the raw source label of a result has no exact match among the
registered ids, resolution falls back to comparing with everything from the
first parenthesis stripped from both sides, and yields the *first* (minimum
registered index) match. -/
theorem fallback_noargs_resolution (m : List (Int × String)) (fr : String)
    (k₀ : Int) (s₀ : String)
    (hs : SortedK m)
    (hne : fr ∉ m.map Prod.snd)
    (hmem : (k₀, s₀) ∈ m)
    (hmatch : noArgs s₀ = noArgs fr)
    (hmin : ∀ q ∈ m, noArgs q.2 = noArgs fr → k₀ ≤ q.1) :
    resolve m fr = k₀ := by
  have hfind := sorted_find?_eq (fun p => noArgs p.2 == noArgs fr) hs hmem
    (by simp [hmatch]) (fun q hq hpq => hmin q hq (by simpa using hpq))
  rw [resolve, if_neg hne, m_matchNoArgs, hfind]

/-- Witness for C6: a result tagged `"cmd(1,2)"` resolves to the registered
index of `"cmd"` (here 3). -/
theorem fallback_noargs_resolution_witness :
    resolve [(3, "cmd")] "cmd(1,2)" = 3 :=
  fallback_noargs_resolution [(3, "cmd")] "cmd(1,2)" 3 "cmd" (by decide) (by decide)
    (by decide) (by decide) (by decide)

/-- C2 (amended): in sequential mode, an incoming result resolving to a
registered index *that is not yet buffered* is stored, and when registered
indices are still missing from the buffer, exactly one targeted `read`
command is issued — to the binding of the minimum missing index, which is
never the index that just arrived.  (As literally stated over *every*
incoming result the claim fails: a duplicate of an already-buffered index
triggers no retry.) -/
theorem seq_retry_min_missing (st : MState) (d : CuData) (i : Int) (s : String)
    (hseq : st.sequential = true)
    (hsorti : SortedK st.idx_src_map)
    (hpos : 0 ≤ resolve st.idx_src_map d.src)
    (hnew : resolve st.idx_src_map d.src ∉ qkeys st.databuf)
    (hmiss : ((qkeys st.idx_src_map).filter
        (fun k => decide (k ∉ qkeys (qinsert st.databuf (resolve st.idx_src_map d.src) d)))).head?
        = some i)
    (hsrc : qgetD st.idx_src_map i "" = s)
    (hrdr : lookupR st.readersMap s = some true) :
    onUpdate st d =
      some ({st with databuf := qinsert st.databuf (resolve st.idx_src_map d.src) d},
            [Ev.newData d, Ev.cmd s Cmd.read]) ∧
    (∀ j ∈ qkeys st.idx_src_map,
        j ∉ qkeys (qinsert st.databuf (resolve st.idx_src_map d.src) d) → i ≤ j) ∧
    i ≠ resolve st.idx_src_map d.src := by
  have hifl : i ∈ (qkeys st.idx_src_map).filter
      (fun k => decide (k ∉ qkeys (qinsert st.databuf (resolve st.idx_src_map d.src) d))) := by
    rcases hfl : (qkeys st.idx_src_map).filter
        (fun k => decide (k ∉ qkeys (qinsert st.databuf (resolve st.idx_src_map d.src) d)))
      with _ | ⟨a, t⟩
    · rw [hfl] at hmiss; cases hmiss
    · rw [hfl, List.head?_cons] at hmiss
      have ha : a = i := Option.some.inj hmiss
      rw [← ha]
      exact List.mem_cons_self a t
  have hin : i ∈ qkeys st.idx_src_map ∧
      i ∉ qkeys (qinsert st.databuf (resolve st.idx_src_map d.src) d) := by
    have := List.mem_filter.mp hifl
    simpa using this
  have hsame : sameElems (qkeys (qinsert st.databuf (resolve st.idx_src_map d.src) d))
      (qkeys st.idx_src_map) = false := by
    rw [Bool.eq_false_iff]
    intro htr
    exact hin.2 (((sameElems_iff _ _).mp htr).2 i hin.1)
  have hsh : seqHandle st (resolve st.idx_src_map d.src) d =
      some ({st with databuf := qinsert st.databuf (resolve st.idx_src_map d.src) d},
            [Ev.cmd s Cmd.read]) := by
    rw [seqHandle, if_neg hnew]
    dsimp only
    rw [if_neg (by simp [hsame]), hmiss]
    simp only [hsrc, hrdr]
  refine ⟨?_, ?_, ?_⟩
  · rw [onUpdate]
    rw [if_pos ⟨hseq, hpos⟩, hsh]
  · intro j hj hjb
    have hjf : j ∈ (qkeys st.idx_src_map).filter
        (fun k => decide (k ∉ qkeys (qinsert st.databuf (resolve st.idx_src_map d.src) d))) :=
      List.mem_filter.mpr ⟨hj, by simpa using hjb⟩
    have hpw : ((qkeys st.idx_src_map).filter
        (fun k => decide (k ∉ qkeys (qinsert st.databuf (resolve st.idx_src_map d.src) d)))).Pairwise
        (· < ·) := (sortedK_keys hsorti).filter _
    rcases hfl : (qkeys st.idx_src_map).filter
        (fun k => decide (k ∉ qkeys (qinsert st.databuf (resolve st.idx_src_map d.src) d)))
      with _ | ⟨a, t⟩
    · rw [hfl] at hjf; cases hjf
    · rw [hfl] at hjf hpw
      rw [hfl, List.head?_cons] at hmiss
      have ha : a = i := Option.some.inj hmiss
      rcases List.mem_cons.mp hjf with h | h
      · omega
      · have := (List.pairwise_cons.mp hpw).1 j h
        omega
  · intro hcontra
    exact hin.2 (hcontra ▸ (mem_qkeys_qinsert _ _ _ _).mpr (Or.inl rfl))

/-- Indices `{0,1,2,3}` with results for `0` and `1` already buffered. -/
def exFour : MState :=
  { readersMap := [("a", true), ("b", true), ("c", true), ("e", true)],
    sequential := true, period := -1,
    databuf := [(0, ⟨"a", 1⟩), (1, ⟨"b", 2⟩)],
    idx_src_map := [(0, "a"), (1, "b"), (2, "c"), (3, "e")], timer := false }

/-- Witness for C2 (amended), the spec's minimal-missing scenario: with
indices `{0,1,2,3}` and results buffered for `0,1`, the arrival of the
result for index `3` triggers exactly one targeted read, for index `2`
(source `"c"`), not for index `3`. -/
theorem seq_retry_min_missing_witness :
    onUpdate exFour ⟨"e", 4⟩ =
      some ({exFour with databuf := [(0, ⟨"a", 1⟩), (1, ⟨"b", 2⟩), (3, ⟨"e", 4⟩)]},
            [Ev.newData ⟨"e", 4⟩, Ev.cmd "c" Cmd.read]) :=
  ((seq_retry_min_missing exFour ⟨"e", 4⟩ 2 "c" (by decide) (by decide) (by decide)
    (by decide) (by decide) (by decide) (by decide)).1).trans (by decide)

/-- Counterexample to C2 as stated: in `exTwo` the result `⟨"a",9⟩` resolves
to registered index 0, and after the buffer write index 1 is registered but
missing — yet the handler issues *no* read command (it emits only
`onNewData`), because index 0 was already buffered. -/
theorem retry_every_result_cex :
    resolve exTwo.idx_src_map "a" = 0 ∧
    (1 : Int) ∈ qkeys exTwo.idx_src_map ∧
    (1 : Int) ∉ qkeys (qinsert exTwo.databuf 0 ⟨"a", 9⟩) ∧
    (onUpdate exTwo ⟨"a", 9⟩).map Prod.snd = some [Ev.newData ⟨"a", 9⟩] := by
  decide

/-- C1: in sequential mode, when storing a newly arrived resolved result
makes the set of buffered indices equal the set of registered indices, the
handler emits `onSeqReadComplete` exactly once, its payload is the buffered
results ordered by ascending registered index (the values of the key-sorted
buffer) with length equal to the number of registered sources, and the
buffer is cleared in the resulting state. -/
theorem seq_cycle_complete (st : MState) (d : CuData)
    (hseq : st.sequential = true)
    (hsortb : SortedK st.databuf)
    (hsorti : SortedK st.idx_src_map)
    (hpos : 0 ≤ resolve st.idx_src_map d.src)
    (hnew : resolve st.idx_src_map d.src ∉ qkeys st.databuf)
    (hsame : sameElems (qkeys (qinsert st.databuf (resolve st.idx_src_map d.src) d))
        (qkeys st.idx_src_map) = true)
    (htimer : 0 < st.period → st.timer = true) :
    onUpdate st d =
      some ({st with databuf := []},
        Ev.newData d ::
          Ev.seqComplete (qvalues (qinsert st.databuf (resolve st.idx_src_map d.src) d)) ::
          (if 0 < st.period then [Ev.timerStart st.period] else [])) ∧
    qkeys (qinsert st.databuf (resolve st.idx_src_map d.src) d) = qkeys st.idx_src_map ∧
    (qvalues (qinsert st.databuf (resolve st.idx_src_map d.src) d)).length
        = st.idx_src_map.length ∧
    ((Ev.newData d ::
        Ev.seqComplete (qvalues (qinsert st.databuf (resolve st.idx_src_map d.src) d)) ::
        (if 0 < st.period then [Ev.timerStart st.period] else [])).filter
      Ev.isComplete).length = 1 := by
  have hsh : seqHandle st (resolve st.idx_src_map d.src) d =
      some ({st with databuf := []},
        Ev.seqComplete (qvalues (qinsert st.databuf (resolve st.idx_src_map d.src) d)) ::
          (if 0 < st.period then [Ev.timerStart st.period] else [])) := by
    rw [seqHandle, if_neg hnew]
    dsimp only
    rw [if_pos hsame]
    by_cases hp : 0 < st.period
    · rw [if_pos hp, if_pos (htimer hp), if_pos hp]
    · rw [if_neg hp, if_neg hp]
  have hkeys : qkeys (qinsert st.databuf (resolve st.idx_src_map d.src) d)
      = qkeys st.idx_src_map := by
    have hmemiff := (sameElems_iff _ _).mp hsame
    exact sorted_eq_of_sameElems
      (sortedK_keys (sortedK_qinsert hsortb _ _)) (sortedK_keys hsorti)
      (fun x => ⟨fun hx => hmemiff.1 x hx, fun hx => hmemiff.2 x hx⟩)
  refine ⟨?_, hkeys, ?_, ?_⟩
  · rw [onUpdate]
    rw [if_pos ⟨hseq, hpos⟩, hsh]
  · have h1 : (qvalues (qinsert st.databuf (resolve st.idx_src_map d.src) d)).length
        = (qkeys (qinsert st.databuf (resolve st.idx_src_map d.src) d)).length := by
      rw [qvalues, qkeys, List.length_map, List.length_map]
    rw [h1, hkeys, qkeys, List.length_map]
  · by_cases hp : 0 < st.period
    · rw [if_pos hp]
      simp [Ev.isComplete]
    · rw [if_neg hp]
      simp [Ev.isComplete]

/-- Witness for C1: in `exTwo` (index 0 buffered) the arrival of the result
for index 1 completes the cycle: one `onSeqReadComplete` with the two
payloads in index order, and the buffer is cleared. -/
theorem seq_cycle_complete_witness :
    onUpdate exTwo ⟨"b", 3⟩ =
      some ({exTwo with databuf := []},
            [Ev.newData ⟨"b", 3⟩, Ev.seqComplete [⟨"a", 7⟩, ⟨"b", 3⟩]]) :=
  ((seq_cycle_complete exTwo ⟨"b", 3⟩ (by decide) (by decide) (by decide) (by decide)
    (by decide) (by decide) (by decide)).1).trans (by decide)

/-! ## C3: the buffer-keys ⊆ registry-keys invariant -/

/-- Any successful `seqHandle` step keeps the registry unchanged and leaves
the buffer either cleared or equal to the buffer with `pos` stored. -/
theorem seqHandle_shape {st : MState} {pos : Int} {d : CuData} {st' : MState} {evs : List Ev}
    (h : seqHandle st pos d = some (st', evs)) :
    st'.idx_src_map = st.idx_src_map ∧
    (st'.databuf = [] ∨ st'.databuf = qinsert st.databuf pos d) := by
  rw [seqHandle] at h
  dsimp only at h
  repeat' split at h
  all_goals
    first
      | exact Option.noConfusion h
      | {
          have h1 := congrArg Prod.fst (Option.some.inj h)
          subst h1
          first
            | exact ⟨rfl, Or.inl rfl⟩
            | exact ⟨rfl, Or.inr rfl⟩
        }

/-- `insertSource` leaves the buffer unchanged and only grows the registry's
key set. -/
theorem insertSource_maps (canon : String → Option String) (st : MState) (src : String)
    (i : Int) :
    (insertSource canon st src i).databuf = st.databuf ∧
    ∀ k ∈ qkeys st.idx_src_map, k ∈ qkeys (insertSource canon st src i).idx_src_map := by
  rw [insertSource]
  by_cases hi : i < 0
  · rw [if_pos hi]
    exact ⟨rfl, fun k hk => hk⟩
  · rw [if_neg hi]
    rcases hc : canon src with _ | cs
    · dsimp only
      split_ifs <;> exact ⟨rfl, fun k hk => hk⟩
    · dsimp only
      split_ifs <;>
        exact ⟨rfl, fun k hk => (mem_qkeys_qinsert _ _ _ _).mpr (Or.inr hk)⟩

/-- A successful `startRead` does not change the state. -/
theorem startRead_state {st st' : MState} {evs : List Ev}
    (h : startRead st = some (st', evs)) : st' = st := by
  rw [startRead] at h
  repeat' split at h
  all_goals
    first
      | exact Option.noConfusion h
      | exact (congrArg Prod.fst (Option.some.inj h)).symm

/-- The string overload of `sendData` touches neither the buffer nor the
registry. -/
theorem sendDataS_maps (st : MState) (s : String) (da : CuData) :
    (sendDataS st s da).1.databuf = st.databuf ∧
    (sendDataS st s da).1.idx_src_map = st.idx_src_map := by
  rw [sendDataS]
  rcases h : lookupR st.readersMap s with _ | b
  · exact ⟨rfl, rfl⟩
  · dsimp only
    split_ifs <;> exact ⟨rfl, rfl⟩

/-- The index overload of `sendData` leaves the buffer unchanged and only
grows the registry's key set (the failed lookup inserts `(i, "")`). -/
theorem sendDataI_maps (st : MState) (i : Int) (da : CuData) :
    (sendDataI st i da).1.databuf = st.databuf ∧
    ∀ k ∈ qkeys st.idx_src_map, k ∈ qkeys (sendDataI st i da).1.idx_src_map := by
  rw [sendDataI]
  rcases h : qgets st.idx_src_map i with _ | src
  · exact ⟨rfl, fun k hk => (mem_qkeys_qinsert _ _ _ _).mpr (Or.inr hk)⟩
  · dsimp only
    split_ifs
    · refine ⟨(sendDataS_maps st src da).1, fun k hk => ?_⟩
      rw [(sendDataS_maps st src da).2]
      exact hk
    · exact ⟨rfl, fun k hk => hk⟩

/-- A successful `onUpdate` step preserves `keys(databuf) ⊆ keys(idx_src_map)`. -/
theorem onUpdate_subset {st st' : MState} {d : CuData} {evs : List Ev}
    (h : onUpdate st d = some (st', evs))
    (hinv : ∀ k ∈ qkeys st.databuf, k ∈ qkeys st.idx_src_map) :
    ∀ k ∈ qkeys st'.databuf, k ∈ qkeys st'.idx_src_map := by
  rw [onUpdate] at h
  by_cases hg : st.sequential = true ∧ 0 ≤ resolve st.idx_src_map d.src
  · rw [if_pos hg] at h
    rcases hsh : seqHandle st (resolve st.idx_src_map d.src) d with _ | ⟨st2, evs2⟩
    · rw [hsh] at h
      exact Option.noConfusion h
    · rw [hsh] at h
      dsimp only at h
      have h1 := congrArg Prod.fst (Option.some.inj h)
      dsimp only at h1
      subst h1
      obtain ⟨hidx, hbuf⟩ := seqHandle_shape hsh
      rw [hidx]
      rcases hbuf with hb | hb
      · rw [hb]
        intro k hk
        simp [qkeys] at hk
      · rw [hb]
        intro k hk
        rcases (mem_qkeys_qinsert _ _ _ _).mp hk with rfl | hk2
        · exact resolve_mem rfl hg.2
        · exact hinv k hk2
  · rw [if_neg hg] at h
    have h1 := congrArg Prod.fst (Option.some.inj h)
    dsimp only at h1
    subst h1
    exact hinv

/-- The states reachable from the freshly constructed object through the
public operations that involve no source removal: `insertSource`,
`setPeriod`, `setSequential`, `startRead`, both `sendData` overloads, and
`onUpdate` (partial operations step only on success). -/
inductive ReachNoRemoval : MState → Prop where
  | init : ReachNoRemoval initState
  | insertSrc {st : MState} (canon : String → Option String) (src : String) (i : Int) :
      ReachNoRemoval st → ReachNoRemoval (insertSource canon st src i)
  | setPer {st : MState} (ms : Int) : ReachNoRemoval st → ReachNoRemoval (setPeriod st ms).1
  | setSeq {st : MState} (b : Bool) : ReachNoRemoval st → ReachNoRemoval (setSequential st b)
  | start {st st' : MState} {evs : List Ev} : ReachNoRemoval st →
      startRead st = some (st', evs) → ReachNoRemoval st'
  | sendS {st : MState} (s : String) (da : CuData) :
      ReachNoRemoval st → ReachNoRemoval (sendDataS st s da).1
  | sendI {st : MState} (i : Int) (da : CuData) :
      ReachNoRemoval st → ReachNoRemoval (sendDataI st i da).1
  | update {st st' : MState} {evs : List Ev} (d : CuData) :
      ReachNoRemoval st → onUpdate st d = some (st', evs) → ReachNoRemoval st'

/-- C3 (amended): along every sequence of public operations that removes no
source (no `removeSource` / `unsetSources` / `setSources`), the indices in
the cycle buffer are always a subset of the registered indices.  (As stated
over *all* public operations the claim fails, because removal never purges
the buffer.) -/
theorem buffer_subset_reachable {st : MState} (h : ReachNoRemoval st) :
    ∀ k ∈ qkeys st.databuf, k ∈ qkeys st.idx_src_map := by
  induction h with
  | init =>
    intro k hk
    simp [initState, qkeys] at hk
  | insertSrc canon src i hr ih =>
    intro k hk
    obtain ⟨hdb, hmono⟩ := insertSource_maps canon _ src i
    rw [hdb] at hk
    exact hmono k (ih k hk)
  | setPer ms hr ih => exact ih
  | setSeq b hr ih => exact ih
  | start hr heq ih =>
    rw [startRead_state heq]
    exact ih
  | sendS s da hr ih =>
    intro k hk
    obtain ⟨hdb, hidx⟩ := sendDataS_maps _ s da
    rw [hdb] at hk
    rw [hidx]
    exact ih k hk
  | sendI i da hr ih =>
    intro k hk
    obtain ⟨hdb, hmono⟩ := sendDataI_maps _ i da
    rw [hdb] at hk
    exact hmono k (ih k hk)
  | update d hr heq ih => exact onUpdate_subset heq ih

/-- Witness for C3 (amended): the mid-cycle state `midCycle` is reachable
without removals, its buffer holds index 0, and index 0 is indeed
registered. -/
theorem buffer_subset_reachable_witness :
    (0 : Int) ∈ qkeys midCycle.idx_src_map :=
  buffer_subset_reachable
    (@ReachNoRemoval.update
      (insertSource some (insertSource some (setSequential initState true) "a" 0) "b" 1)
      midCycle
      [Ev.newData ⟨"a", 1⟩, Ev.cmd "b" Cmd.read]
      ⟨"a", 1⟩
      (ReachNoRemoval.insertSrc some "b" 1
        (ReachNoRemoval.insertSrc some "a" 0
          (ReachNoRemoval.setSeq true ReachNoRemoval.init)))
      (by decide))
    0 (by decide)

/-- Counterexample to C3 as stated: `midCycle` is reached by
`setSequential`, two `insertSource`s and one `onUpdate`; the further public
operation `removeSource("a")` leaves buffered index 0 while deregistering
it, so `keys(CycleBuffer) ⊆ keys(SourceRegistry)` is violated. -/
theorem buffer_subset_cex :
    (onUpdate (insertSource some (insertSource some (setSequential initState true) "a" 0)
        "b" 1) ⟨"a", 1⟩).map Prod.fst = some midCycle ∧
    (0 : Int) ∈ qkeys (removeSource midCycle "a").1.databuf ∧
    (0 : Int) ∉ qkeys (removeSource midCycle "a").1.idx_src_map := by
  decide
